import Mathlib

/-!
A verification development for the Rust-LSM-KV storage engine.

The definitions below are a shallow embedding of the engine:

* `src/level.rs` — `Level` and `Level.remaining`;
* `src/lsm.rs` — `LSMTree` with `get_run`, `merge_down`, `put`, `get`,
  `range` and `del`.

Machine integers (`usize`) are modelled as `Nat`.  Rust's checked
arithmetic on `usize` (which panics on underflow) is modelled with
`Option`: a `none` result of a partial operation models a panic, while
`some x` models a normal return of `x`.

The repository's `buffer`, `run`, `merge` and `data_type` modules are not
part of the sources; they are modelled from the specification (its data
model and external-interface sections), and every such definition carries
a doc comment saying so.
-/

namespace LSMKV

/-- Keys are raw byte strings (Rust `Vec<u8>`), modelled as lists of naturals. -/
abbrev Key := List Nat

/-- Values are raw byte strings (Rust `ValueT`, also a `Vec<u8>`). -/
abbrev ValueT := List Nat

/-- Modelled from the spec: the reserved tombstone sentinel value marking a
logical deletion (the missing `data_type` module's `TOMBSTONE` constant is a
fixed reserved byte sequence; its concrete bytes are immaterial). -/
def TOMBSTONE : ValueT := [0]

/-- An entry: one key/value record (Rust `EntryT`). -/
structure EntryT where
  key : Key
  value : ValueT
deriving DecidableEq

/-- Lexicographic byte-string comparison, the ordering of Rust byte vectors. -/
def bytesLe : List Nat → List Nat → Bool
  | [], _ => true
  | _ :: _, [] => false
  | a :: ka, b :: kb => if a < b then true else if b < a then false else bytesLe ka kb

/-- Modelled from the spec: the missing `run` module's `Run` — an immutable,
capacity-bounded, sorted-by-key segment.  `entries` lists its records in the
order they were appended (the writer guarantees ascending key order); the
memory-mapping calls (`map_write`, `unmap`) are I/O no-ops and not modelled. -/
structure Run where
  max_size : Nat
  bf_bits : Nat
  entries : List EntryT
deriving DecidableEq

/-- Modelled from the spec: `Run::new(max_size, bf_bits_per_entry)` allocates
a new empty writable segment. -/
def Run.new (max_size bf_bits : Nat) : Run := ⟨max_size, bf_bits, []⟩

/-- Modelled from the spec: `Run::put` appends one entry; the caller
guarantees overall sorted append order. -/
def Run.put (r : Run) (k : Key) (v : ValueT) : Run :=
  { r with entries := r.entries ++ [⟨k, v⟩] }

/-- Modelled from the spec: `Run::get`, point lookup of the first (unique)
entry with the given key. -/
def Run.get (r : Run) (k : Key) : Option ValueT :=
  (r.entries.find? fun e => decide (e.key = k)).map fun e => e.value

/-- Modelled from the spec: `Run::range`, all entries with keys in the
half-open interval, in the segment's own (ascending) order. -/
def Run.range (r : Run) (s e : Key) : List EntryT :=
  r.entries.filter fun x => bytesLe s x.key && !bytesLe e x.key

/-- Modelled from the spec: `run.size`, the number of entries in the segment. -/
def Run.size (r : Run) : Nat := r.entries.length

/-- Modelled from the spec: `Run::map_read_default` maps the segment into
memory and yields its full entry sequence. -/
def Run.map_read_default (r : Run) : List EntryT := r.entries

/-- Modelled from the spec: the missing `buffer` module's `Buffer` — the
bounded, mutable, sorted in-memory store absorbing writes. -/
structure Buffer where
  max_size : Nat
  entries : List EntryT
deriving DecidableEq

/-- Modelled from the spec: sorted insert-or-overwrite of one key/value pair
into the buffer's entry list. -/
def Buffer.putList : List EntryT → Key → ValueT → List EntryT
  | [], k, v => [⟨k, v⟩]
  | e :: es, k, v =>
      if e.key = k then ⟨k, v⟩ :: es
      else if bytesLe k e.key then ⟨k, v⟩ :: e :: es
      else e :: Buffer.putList es k v

/-- Modelled from the spec: `Buffer::put` inserts or overwrites a key. -/
def Buffer.put (b : Buffer) (k : Key) (v : ValueT) : Buffer :=
  { b with entries := Buffer.putList b.entries k v }

/-- Modelled from the spec: `Buffer::get`, lookup of the (unique) buffered
entry with the given key. -/
def Buffer.get (b : Buffer) (k : Key) : Option ValueT :=
  (b.entries.find? fun e => decide (e.key = k)).map fun e => e.value

/-- Modelled from the spec: `Buffer::full`, the buffer is at capacity. -/
def Buffer.full (b : Buffer) : Bool := decide (b.max_size ≤ b.entries.length)

/-- Modelled from the spec: `Buffer::empty` clears the buffer. -/
def Buffer.empty (b : Buffer) : Buffer := { b with entries := [] }

/-- Modelled from the spec: `Buffer::range`, all buffered entries with keys
in the half-open interval. -/
def Buffer.range (b : Buffer) (s e : Key) : List EntryT :=
  b.entries.filter fun x => bytesLe s x.key && !bytesLe e x.key

/-- Modelled from the spec: the first-wins duplicate-key resolution of the
missing `merge` module — of several entries with the same key only the first
one in the input sequence (the one contributed by the most recently added
source) is kept.  `seen` accumulates the keys already emitted. -/
def dedupFirstKeysAux : List Key → List EntryT → List EntryT
  | _, [] => []
  | seen, e :: es =>
      if e.key ∈ seen then dedupFirstKeysAux seen es
      else e :: dedupFirstKeysAux (e.key :: seen) es

/-- Modelled from the spec: keep only the first entry for every key. -/
def dedupFirstKeys (l : List EntryT) : List EntryT := dedupFirstKeysAux [] l

/-- Key-based ordering of entries, used to sort the merged output. -/
def entryLe (a b : EntryT) : Prop := bytesLe a.key b.key = true

instance : DecidableRel entryLe := fun _ _ => decEq _ _

/-- Sort an entry sequence by key. -/
def sortByKey (l : List EntryT) : List EntryT := l.insertionSort entryLe

/-- Modelled from the spec: the missing `merge` module's `MergeContextT` — a
k-way merge of the sorted sources added to it (in add order: most recent
source first) that drains as one key-sorted sequence in which, for every
duplicated key, the entry of the earliest-added source wins. -/
def mergeSources (srcs : List (List EntryT)) : List EntryT :=
  sortByKey (dedupFirstKeys srcs.flatten)

/-- One tier of the hierarchy (src/level.rs): a bounded ordered collection of
runs.  Index 0 of `runs` is the front of the deque, the most recent run. -/
structure Level where
  runs : List Run
  max_runs : Nat
  max_run_size : Nat
deriving DecidableEq

/-- Level::new (src/level.rs lines 12-18). -/
def Level.new (max_runs max_run_size : Nat) : Level := ⟨[], max_runs, max_run_size⟩

/-- Level::remaining (src/level.rs lines 20-22): the usize subtraction
`max_runs - runs.len()` under Rust's overflow checking — `none` models the
panic when `runs.len() > max_runs`. -/
def Level.remaining (l : Level) : Option Nat :=
  if l.runs.length ≤ l.max_runs then some (l.max_runs - l.runs.length) else none

/-- The tree (src/lsm.rs lines 15-21).  The worker pool and the related
concurrency scaffolding are unused by the algorithms and are not modelled. -/
structure LSMTree where
  levels : List Level
  buffer : Buffer
  bf_bits_per_entry : Nat
deriving DecidableEq

/-- Loop body of LSMTree::get_run over the level list; `index` is the
mutable local variable.  A `none` result models a panic: the checked usize
subtraction `index -= level.runs.len()` underflowing, or a failing
`unwrap`.  The run lookup `level.runs.get(index).unwrap()` is computed and
then discarded, exactly as in the source. -/
def getRunAux : List Level → Nat → Nat → Option (Option Run)
  | [], _, _ => some none
  | l :: ls, run_id, index =>
      if run_id < l.runs.length then
        if index < l.runs.length then getRunAux ls run_id index else none
      else if l.runs.length ≤ index then getRunAux ls run_id (index - l.runs.length)
      else none

/-- LSMTree::get_run (src/lsm.rs lines 26-36). -/
def LSMTree.get_run (t : LSMTree) (run_id : Nat) : Option (Option Run) :=
  getRunAux t.levels run_id run_id

/-- The compacted run built by LSMTree::merge_down (src/lsm.rs lines 69-86):
the current level's runs are fed front-to-back into the merge context, a
fresh run sized to the next level is allocated, and the merge output is
drained into it, writing an entry unless the next level is the last one and
the entry's value is the tombstone. -/
def drainRun (t : LSMTree) (lcur lnext : Level) (next : Nat) : Run :=
  (mergeSources (lcur.runs.map Run.map_read_default)).foldl
    (fun r e =>
      if !(decide (next = t.levels.length - 1) && decide (e.value = TOMBSTONE))
      then r.put e.key e.value else r)
    (Run.new lnext.max_run_size t.bf_bits_per_entry)

/-- The level list after the body of a merge_down of `current` into `next`:
the drained run is pushed at the front of the next level and the current
level's run sequence is cleared. -/
def mergedLevels (t : LSMTree) (lcur lnext : Level) (current next : Nat) : List Level :=
  (t.levels.set next { lnext with runs := drainRun t lcur lnext next :: lnext.runs }).set
    current { lcur with runs := [] }

/-- The non-recursive tail of LSMTree::merge_down (src/lsm.rs lines 65-94):
build the compacted run, push it at the front of the next level and clear
the current level. -/
def mergeBody (t : LSMTree) (current next : Nat) : Option LSMTree :=
  match t.levels[current]?, t.levels[next]? with
  | some lcur, some lnext =>
      some { t with levels := mergedLevels t lcur lnext current next }
  | _, _ => none

/-- LSMTree::merge_down (src/lsm.rs lines 39-94), with explicit fuel for the
recursion into deeper levels (any fuel above the number of levels is
enough).  A `none` result models a panic: an out-of-bounds level index, an
underflowing `remaining()`, exhausted fuel, or the failing assertion
`assert!(self.levels[next].remaining() > 0)` after the recursive call.  The
capacity-exhaustion return at the last level (which only logs a message) is
a normal `some` return leaving the tree unchanged. -/
def mergeDownAux : Nat → LSMTree → Nat → Option LSMTree
  | 0, _, _ => none
  | fuel + 1, t, current =>
      match t.levels[current]? with
      | none => none
      | some lcur =>
          match lcur.remaining with
          | none => none
          | some rem =>
              if 0 < rem then some t
              else if current = t.levels.length - 1 then some t
              else
                match t.levels[current + 1]? with
                | none => none
                | some lnext =>
                    match lnext.remaining with
                    | none => none
                    | some rn =>
                        if rn = 0 then
                          match mergeDownAux fuel t (current + 1) with
                          | none => none
                          | some t1 =>
                              match t1.levels[current + 1]? with
                              | none => none
                              | some lnext1 =>
                                  match lnext1.remaining with
                                  | none => none
                                  | some rn1 =>
                                      if 0 < rn1 then mergeBody t1 current (current + 1)
                                      else none
                        else mergeBody t current (current + 1)

/-- LSMTree::merge_down at its standard fuel. -/
def LSMTree.merge_down (t : LSMTree) (current : Nat) : Option LSMTree :=
  mergeDownAux (t.levels.length + 1) t current

/-- LSMTree::put (src/lsm.rs lines 96-130).  A `none` result models a panic
(indexing `levels[0]` when the level list is empty).  The source flushes a
full buffer straight into a new front run of level 0: its merge_down calls
are commented out, so the flush never triggers compaction. -/
def LSMTree.put (t : LSMTree) (entry : EntryT) : Option (LSMTree × Bool) :=
  if t.buffer.full = false then
    some ({ t with buffer := t.buffer.put entry.key entry.value }, true)
  else
    match t.levels with
    | [] => none
    | l0 :: rest =>
        let filled := t.buffer.entries.foldl
          (fun r e => r.put e.key e.value)
          (Run.new l0.max_run_size t.bf_bits_per_entry)
        some ({ t with
          levels := { l0 with runs := filled :: l0.runs } :: rest,
          buffer := (t.buffer.empty).put entry.key entry.value }, true)

/-- The run-scanning loop of LSMTree::get (src/lsm.rs lines 149-174):
`current_run` ranges over 0..10, `latest_run` and `latest_val` are the
mutable locals (`latest_run = -1` meaning no hit yet).  A `none` result
models a panic inside get_run. -/
def getScan (t : LSMTree) (key : Key) : Nat → Nat → Int → ValueT → Option (Int × ValueT)
  | 0, _, latest_run, latest_val => some (latest_run, latest_val)
  | n + 1, current_run, latest_run, latest_val =>
      if 0 ≤ latest_run then getScan t key n (current_run + 1) latest_run latest_val
      else
        match t.get_run current_run with
        | none => none
        | some none => getScan t key n (current_run + 1) latest_run latest_val
        | some (some r) =>
            match r.get key with
            | none => getScan t key n (current_run + 1) latest_run latest_val
            | some v =>
                if latest_run < 0 ∨ (current_run : Int) < latest_run
                then some ((current_run : Int), v)
                else some (latest_run, latest_val)

/-- LSMTree::get (src/lsm.rs lines 132-182).  The outer Option models a
panic; the inner Option is the Rust return value. -/
def LSMTree.get (t : LSMTree) (key : Key) : Option (Option ValueT) :=
  match t.buffer.get key with
  | some v => if v ≠ TOMBSTONE then some (some v) else some none
  | none =>
      match getScan t key 10 0 (-1) [] with
      | none => none
      | some (latest_run, latest_val) =>
          if 0 ≤ latest_run ∧ latest_val ≠ TOMBSTONE
          then some (some latest_val) else some none

/-- LSMTree::range (src/lsm.rs lines 184-212).  The source collects
candidate sets from the buffer and from get_run over run ids 0..10 into a
map, but the resolution of those candidates is not implemented (the
trailing TODO) and the function always returns Rust `None`, discarding the
collected map.  The model keeps the get_run evaluations, whose panics
propagate, and the constant result. -/
def LSMTree.range (t : LSMTree) (s e : Key) : Option (Option (List ValueT)) :=
  let _ := t.buffer.range s e
  if (List.range 10).all (fun i => (t.get_run i).isSome) then some none else none

/-- LSMTree::del (src/lsm.rs lines 214-218): put of the tombstone entry,
discarding put's boolean result. -/
def LSMTree.del (t : LSMTree) (key : Key) : Option LSMTree :=
  (t.put ⟨key, TOMBSTONE⟩).map fun p => p.1

/-- Sequencing helper: apply put inside Option, keeping only the state. -/
def putE (s : Option LSMTree) (k : Key) (v : ValueT) : Option LSMTree :=
  s.bind fun t => (t.put ⟨k, v⟩).map fun p => p.1

/-- The value of the first entry with the given key in an entry sequence
(when the sequence is the front-to-back concatenation of a level's runs,
this is the key's value in the most recent run containing it). -/
def firstValue (l : List EntryT) (k : Key) : Option ValueT :=
  (l.find? fun e => decide (e.key = k)).map fun e => e.value

/-- A buffer insert-or-overwrite always leaves the written pair as the entry
found for its key. -/
lemma putList_find (es : List EntryT) (k : Key) (v : ValueT) :
    (Buffer.putList es k v).find? (fun e => decide (e.key = k)) = some ⟨k, v⟩ := by
  induction es with
  | nil => simp [Buffer.putList]
  | cons e es ih =>
      by_cases h1 : e.key = k
      · simp [Buffer.putList, h1]
      · by_cases h2 : bytesLe k e.key = true
        · simp [Buffer.putList, h1, h2]
        · simp [Buffer.putList, h1, h2, ih]

/-- Buffer lookup after a buffer write of the same key sees the written value. -/
lemma bufferGet_put (b : Buffer) (k : Key) (v : ValueT) :
    (b.put k v).get k = some v := by
  simp [Buffer.put, Buffer.get, putList_find]

/-- Whenever put returns at all, it returns true and the written key's value
is visible in the buffer (either the buffer had room, or it was flushed,
emptied and the entry inserted into the empty buffer). -/
lemma put_some (t : LSMTree) (k : Key) (v : ValueT) (t1 : LSMTree) (b : Bool)
    (h : t.put ⟨k, v⟩ = some (t1, b)) : b = true ∧ t1.buffer.get k = some v := by
  unfold LSMTree.put at h
  by_cases hf : t.buffer.full = false
  · rw [if_pos hf] at h
    simp only [Option.some.injEq, Prod.mk.injEq] at h
    obtain ⟨ht, hb⟩ := h
    refine ⟨hb.symm, ?_⟩
    rw [← ht]
    exact bufferGet_put _ _ _
  · rw [if_neg hf] at h
    cases hl : t.levels with
    | nil => rw [hl] at h; simp at h
    | cons l0 rest =>
        rw [hl] at h
        simp only [Option.some.injEq, Prod.mk.injEq] at h
        obtain ⟨ht, hb⟩ := h
        refine ⟨hb.symm, ?_⟩
        rw [← ht]
        exact bufferGet_put _ _ _

/-- The get_run loop either panics or falls through to `None`: the result of
the run lookup it performs is discarded, so no run is ever returned. -/
lemma getRunAux_never_some_run :
    ∀ (ls : List Level) (run_id index : Nat),
      getRunAux ls run_id index = none ∨ getRunAux ls run_id index = some none := by
  intro ls
  induction ls with
  | nil => intro _ _; right; rfl
  | cons l ls ih =>
      intro run_id index
      by_cases h1 : run_id < l.runs.length
      · by_cases h2 : index < l.runs.length
        · simpa [getRunAux, h1, h2] using ih run_id index
        · left; simp [getRunAux, h1, h2]
      · by_cases h2 : l.runs.length ≤ index
        · simpa [getRunAux, h1, h2] using ih run_id (index - l.runs.length)
        · left; simp [getRunAux, h1, h2]

/-- Finding the first match is taking the head of the filtered list. -/
lemma find?_eq_filter_head? {α : Type} (p : α → Bool) :
    ∀ l : List α, l.find? p = (l.filter p).head? := by
  intro l
  induction l with
  | nil => rfl
  | cons a l ih =>
      by_cases h : p a = true
      · rw [List.find?_cons_of_pos _ h, List.filter_cons, if_pos h]
        rfl
      · rw [List.find?_cons_of_neg _ h, List.filter_cons, if_neg h, ih]

/-- First-wins deduplication keeps, for every key not yet seen, exactly the
first entry with that key of the input sequence. -/
lemma dedupAux_filter_key (k : Key) :
    ∀ (l : List EntryT) (seen : List Key),
      (dedupFirstKeysAux seen l).filter (fun e => decide (e.key = k)) =
        if k ∈ seen then [] else (l.filter fun e => decide (e.key = k)).take 1 := by
  intro l
  induction l with
  | nil =>
      intro seen
      by_cases h : k ∈ seen <;> simp [dedupFirstKeysAux, h]
  | cons e es ih =>
      intro seen
      have hstep : dedupFirstKeysAux seen (e :: es) =
          if e.key ∈ seen then dedupFirstKeysAux seen es
          else e :: dedupFirstKeysAux (e.key :: seen) es := rfl
      rw [hstep]
      by_cases hs : e.key ∈ seen
      · rw [if_pos hs, ih seen, List.filter_cons]
        by_cases hk : k ∈ seen
        · simp [hk]
        · have hek : (decide (e.key = k)) = false := by
            simp only [decide_eq_false_iff_not]
            intro h; exact hk (h ▸ hs)
          simp [hk, hek]
      · rw [if_neg hs, List.filter_cons, List.filter_cons]
        by_cases he : e.key = k
        · have hd : (decide (e.key = k)) = true := by simp [he]
          have hk1 : k ∈ e.key :: seen := he ▸ List.mem_cons_self e.key seen
          have hk : ¬ k ∈ seen := fun h => hs (he ▸ h)
          rw [ih (e.key :: seen), if_pos hk1, if_neg hk]
          simp [hd]
        · have hd : (decide (e.key = k)) = false := by simp [he]
          rw [ih (e.key :: seen)]
          have hmem : (k ∈ e.key :: seen) ↔ k ∈ seen := by
            constructor
            · intro h
              rcases List.mem_cons.mp h with h1 | h1
              · exact absurd h1.symm he
              · exact h1
            · exact fun h => List.mem_cons_of_mem _ h
          by_cases hk : k ∈ seen
          · rw [if_pos (hmem.mpr hk), if_pos hk]
            simp [hd]
          · rw [if_neg (fun h => hk (hmem.mp h)), if_neg hk]
            simp [hd]

/-- Draining a conditional sequence of run appends produces exactly the
filtered entry sequence, appended after the run's existing entries. -/
lemma foldl_put_entries (c : EntryT → Bool) :
    ∀ (l : List EntryT) (r : Run),
      (l.foldl (fun r e => if c e then r.put e.key e.value else r) r).entries =
        r.entries ++ l.filter c := by
  intro l
  induction l with
  | nil => intro r; simp
  | cons e es ih =>
      intro r
      rw [List.foldl_cons, List.filter_cons]
      by_cases h : c e = true
      · rw [if_pos h, if_pos h, ih]
        simp [Run.put]
      · rw [if_neg h, if_neg h, ih]

/-- The merged, deduplicated, sorted output of the merge context contains,
for a key present in the concatenated sources, exactly the first entry of
the concatenation with that key — the entry of the most recent source. -/
lemma mergeSources_filter_key (srcs : List (List EntryT)) (k : Key) (e0 : EntryT)
    (h : srcs.flatten.find? (fun e => decide (e.key = k)) = some e0) :
    (mergeSources srcs).filter (fun e => decide (e.key = k)) = [e0] := by
  have hd : (dedupFirstKeys srcs.flatten).filter (fun e => decide (e.key = k)) = [e0] := by
    rw [dedupFirstKeys, dedupAux_filter_key k srcs.flatten []]
    rw [if_neg (List.not_mem_nil k)]
    rw [find?_eq_filter_head?] at h
    cases hf : (srcs.flatten.filter fun e => decide (e.key = k)) with
    | nil => rw [hf] at h; simp at h
    | cons a l =>
        rw [hf] at h
        simp only [List.head?_cons, Option.some.injEq] at h
        simp [h]
  have hperm : List.Perm
      ((mergeSources srcs).filter (fun e => decide (e.key = k)))
      ((dedupFirstKeys srcs.flatten).filter (fun e => decide (e.key = k))) :=
    (List.perm_insertionSort entryLe (dedupFirstKeys srcs.flatten)).filter _
  rw [hd] at hperm
  exact List.perm_singleton.mp hperm

/-- One-step unfolding of mergeDownAux at a successor fuel. -/
lemma mergeDownAux_succ (fuel : Nat) (t : LSMTree) (current : Nat) :
    mergeDownAux (fuel + 1) t current =
      (match t.levels[current]? with
      | none => none
      | some lcur =>
          match lcur.remaining with
          | none => none
          | some rem =>
              if 0 < rem then some t
              else if current = t.levels.length - 1 then some t
              else
                match t.levels[current + 1]? with
                | none => none
                | some lnext =>
                    match lnext.remaining with
                    | none => none
                    | some rn =>
                        if rn = 0 then
                          match mergeDownAux fuel t (current + 1) with
                          | none => none
                          | some t1 =>
                              match t1.levels[current + 1]? with
                              | none => none
                              | some lnext1 =>
                                  match lnext1.remaining with
                                  | none => none
                                  | some rn1 =>
                                      if 0 < rn1 then mergeBody t1 current (current + 1)
                                      else none
                        else mergeBody t current (current + 1)) := rfl

/-- Evaluation of merge_down on the direct path: the current level exists
and is full, it is not the last level, and the next level has room, so no
recursive compaction happens and the body runs at once. -/
lemma mergeDown_eval (t : LSMTree) (current : Nat) (lcur lnext : Level) (rn : Nat)
    (h1 : t.levels[current]? = some lcur) (h2 : lcur.remaining = some 0)
    (h3 : current + 1 < t.levels.length)
    (h4 : t.levels[current + 1]? = some lnext)
    (h5 : lnext.remaining = some rn) (h6 : 0 < rn) :
    t.merge_down current = mergeBody t current (current + 1) := by
  have hne : ¬ current = t.levels.length - 1 := by omega
  have hrn : ¬ rn = 0 := by omega
  unfold LSMTree.merge_down
  rw [mergeDownAux_succ]
  simp only [h1, h2, h4, h5, lt_self_iff_false, if_false, if_neg hne, if_neg hrn]

/-- Evaluation of the merge body when both level indices are in bounds. -/
lemma mergeBody_eval (t : LSMTree) (current next : Nat) (lcur lnext : Level)
    (h1 : t.levels[current]? = some lcur) (h4 : t.levels[next]? = some lnext) :
    mergeBody t current next =
      some { t with levels := mergedLevels t lcur lnext current next } := by
  unfold mergeBody
  rw [h1, h4]

/-! Concrete states used by the claim theorems below. -/

/-- A fresh tree: one level of capacity 10 runs, buffer capacity 1. -/
def c1t0 : LSMTree := ⟨[⟨[], 10, 10⟩], ⟨1, []⟩, 8⟩

/-- A fresh tree: one level of capacity 1 run, buffer capacity 1. -/
def c2t0 : LSMTree := ⟨[⟨[], 1, 10⟩], ⟨1, []⟩, 8⟩

/-- A run holding key `[1]` with the live (non-tombstone) value `[10]`. -/
def c3r : Run := ⟨10, 8, [⟨[1], [10]⟩]⟩

/-- A tree whose level 0 holds `c3r` and whose buffer is empty. -/
def c3s : LSMTree := ⟨[⟨[c3r], 10, 10⟩], ⟨2, []⟩, 8⟩

/-- A tree with two levels of one run each. -/
def c4s : LSMTree := ⟨[⟨[⟨10, 8, []⟩], 1, 10⟩, ⟨[⟨10, 8, []⟩], 1, 10⟩], ⟨2, []⟩, 8⟩

/-- A tree whose buffer holds key `[1]` with live value `[10]`. -/
def c5s : LSMTree := ⟨[⟨[], 10, 10⟩], ⟨2, [⟨[1], [10]⟩]⟩, 8⟩

/-- A tree whose level 0 run physically holds an old value for key `[1]`,
with a non-full buffer. -/
def c6w : LSMTree := ⟨[⟨[⟨10, 8, [⟨[1], [9]⟩]⟩], 10, 10⟩], ⟨2, []⟩, 8⟩

/-- The tree `c6w` after `del [1]`: the tombstone sits in the buffer and the
old value is still physically present in the level 0 run. -/
def c6wAfter : LSMTree :=
  ⟨[⟨[⟨10, 8, [⟨[1], [9]⟩]⟩], 10, 10⟩], ⟨2, [⟨[1], TOMBSTONE⟩]⟩, 8⟩

/-- A full source level (capacity 1) whose single run holds a tombstone. -/
def c7lcur : Level := ⟨[⟨10, 8, [⟨[1], TOMBSTONE⟩]⟩], 1, 10⟩

/-- An empty target level with room (capacity 2). -/
def c7lnext : Level := ⟨[], 2, 10⟩

/-- A three-level tree: level 0 is `c7lcur`, level 1 is `c7lnext` (not the
last level), level 2 exists below. -/
def c7w : LSMTree := ⟨[c7lcur, c7lnext, ⟨[], 2, 10⟩], ⟨2, []⟩, 8⟩

/-- A full source level whose two runs both hold key `[1]`: the more recent
front run maps it to `[7]`, the older back run to `[5]`. -/
def c8lcur : Level := ⟨[⟨10, 8, [⟨[1], [7]⟩]⟩, ⟨10, 8, [⟨[1], [5]⟩]⟩], 2, 10⟩

/-- An empty target level with room (capacity 2). -/
def c8lnext : Level := ⟨[], 2, 10⟩

/-- A two-level tree: full level 0 `c8lcur`, target level 1 `c8lnext`. -/
def c8w : LSMTree := ⟨[c8lcur, c8lnext], ⟨2, []⟩, 8⟩

/-- Like `c8w`, but the most recent copy of key `[1]` is a tombstone, and
the target level 1 is the last level. -/
def c8x : LSMTree :=
  ⟨[⟨[⟨10, 8, [⟨[1], TOMBSTONE⟩]⟩, ⟨10, 8, [⟨[1], [5]⟩]⟩], 2, 10⟩, ⟨[], 2, 10⟩], ⟨2, []⟩, 8⟩

/-- A tree whose two levels (capacity 1 each) are both full. -/
def c9t : LSMTree := ⟨[⟨[⟨10, 8, []⟩], 1, 10⟩, ⟨[⟨10, 8, []⟩], 1, 10⟩], ⟨2, []⟩, 8⟩

/-- The (full) last level of `c9t`. -/
def c9lcur : Level := ⟨[⟨10, 8, []⟩], 1, 10⟩

/-- A level with one run and capacity 3. -/
def c10a : Level := ⟨[⟨10, 8, []⟩], 3, 10⟩

/-- A level with two runs but capacity 1: its runs count exceeds max_runs. -/
def c10b : Level := ⟨[⟨10, 8, []⟩, ⟨10, 8, []⟩], 1, 10⟩

/-! The claim theorems. -/

/-- Claim C1 (refuted by the code): the recency invariant fails once a
flush has moved both writes of key `[1]` out of the buffer.  Writing `[1]`
with `[10]` then `[11]` (no delete in between, buffer capacity 1 so each
write flushes the previous one to level 0) and then writing key `[2]`
leaves value `[11]` for key `[1]` physically in the front run of level 0 —
second conjunct — yet `get [1]` returns Rust `None` instead of `[11]`,
because `get_run` discards every run lookup, so the run scan of `get`
observes nothing. -/
theorem c1_recency_invariant_fails_after_flush :
    (putE (putE (putE (some c1t0) [1] [10]) [1] [11]) [2] [12]).map
        (fun t => t.get [1]) = some (some none) ∧
    (putE (putE (putE (some c1t0) [1] [10]) [1] [11]) [2] [12]).map
        (fun t => t.levels.map fun l => l.runs.map Run.entries) =
      some [[[⟨[1], [11]⟩], [⟨[1], [10]⟩]]] := by
  exact ⟨by decide, by decide⟩

/-- Claim C2 (refuted by the code): put flushes a full buffer into level 0
without ever calling merge_down (those calls are commented out in the
source), so after three puts into a tree with buffer capacity 1 and level 0
capacity `max_runs = 1`, level 0 holds 2 runs and the capacity invariant
`runs.len() <= max_runs` is broken outside any merge window. -/
theorem c2_flush_overfills_level0_without_merge_down :
    (putE (putE (putE (some c2t0) [1] [10]) [2] [11]) [3] [12]).map
        (fun t => t.levels.map fun l => (l.runs.length, l.max_runs)) =
      some [(2, 1)] := by
  decide

/-- Claim C3 (refuted by the code): on a buffer miss the run scan finds
nothing.  In `c3s` the key `[1]` is absent from the buffer and its level 0
run `c3r` maps it to the live value `[10]` (and the tombstone is `[0]`, so
`[10]` is not it), yet `get [1]` returns Rust `None` instead of `[10]`,
because `get_run` discards the run lookup it performs and always falls
through to `None`. -/
theorem c3_buffer_miss_scan_finds_nothing :
    Run.get c3r [1] = some [10] ∧ TOMBSTONE = [0] ∧
    c3s.levels = [⟨[c3r], 10, 10⟩] ∧ c3s.buffer.get [1] = none ∧
    c3s.get [1] = some none := by
  decide

/-- Claim C4, counterexample: get_run does not return `None` for every
run_id and tree state.  On the two-level state `c4s` it returns `None` for
run_id 0, but for run_id 1 the checked usize subtraction
`index -= level.runs.len()` underflows and the call panics (modelled as
the outer `none`) instead of returning. -/
theorem c4_counterexample_underflow_panic :
    c4s.get_run 0 = some none ∧ c4s.get_run 1 = none := by
  decide

/-- Claim C4 as amended: whenever get_run returns at all it returns `None` —
it never yields a run, since the lookup it performs is discarded — but on
some inputs it panics instead of returning (underflow of the index
arithmetic), so the only possible outcomes are a panic or `None`. -/
theorem c4_get_run_panics_or_returns_nothing (t : LSMTree) (run_id : Nat) :
    t.get_run run_id = none ∨ t.get_run run_id = some none :=
  getRunAux_never_some_run t.levels run_id run_id

/-- Claim C5 (refuted by the code): range returns no values.  In `c5s` the
buffer holds key `[1]` with live value `[10]` inside the queried interval —
the buffer candidate set is nonempty, first conjunct — yet `range [1] [2]`
returns Rust `None`: the candidate map it builds is discarded and the
resolution step is an unimplemented TODO. -/
theorem c5_range_never_returns_values :
    c5s.buffer.range [1] [2] = [⟨[1], [10]⟩] ∧ c5s.range [1] [2] = some none := by
  decide

/-- Claim C9 as amended: when merge_down is called directly on the last
level and that level is full, it reports capacity exhaustion only by
logging and returns normally without modifying any tree state. -/
theorem c9_last_level_merge_down_is_nonfatal_noop
    (t : LSMTree) (current : Nat) (lcur : Level)
    (h1 : t.levels[current]? = some lcur)
    (h2 : lcur.remaining = some 0)
    (h3 : current = t.levels.length - 1) :
    t.merge_down current = some t := by
  unfold LSMTree.merge_down
  rw [mergeDownAux_succ]
  simp only [h1, h2, lt_self_iff_false, if_false, if_pos h3]

/-- Claim C9, witness: on `c9t`, whose last level (index 1) is full,
calling merge_down on that last level returns the tree unchanged. -/
theorem c9_witness :
    c9t.levels[1]? = some c9lcur ∧ c9lcur.remaining = some 0 ∧
    1 = c9t.levels.length - 1 ∧ c9t.merge_down 1 = some c9t :=
  ⟨by decide, by decide, by decide,
    c9_last_level_merge_down_is_nonfatal_noop c9t 1 c9lcur (by decide) (by decide)
      (by decide)⟩

/-- Claim C9, counterexample: capacity exhaustion does abort the operation
that triggered it when it is reached through recursion.  Both levels of
`c9t` are full (second conjunct); merge_down on level 0 recursively calls
merge_down on the full last level, which frees nothing, and the assertion
`assert!(self.levels[next].remaining() > 0)` then fails — a panic, modelled
as `none` — instead of the claimed non-fatal report. -/
theorem c9_counterexample_recursive_exhaustion_panics :
    c9t.merge_down 0 = none ∧
    c9t.levels.map (fun l => (l.runs.length, l.max_runs)) = [(1, 1), (1, 1)] := by
  decide

/-- Claim C10: remaining() returns `max_runs - runs.len()` whenever
`runs.len() <= max_runs`, and fails (the checked usize subtraction panics,
an internal-invariant error, modelled as `none`) when `runs.len()`
exceeds `max_runs`, never returning or implying a negative capacity. -/
theorem c10_remaining_is_checked_subtraction (l : Level) :
    (l.runs.length ≤ l.max_runs → l.remaining = some (l.max_runs - l.runs.length)) ∧
    (l.max_runs < l.runs.length → l.remaining = none) := by
  constructor
  · intro h
    unfold Level.remaining
    rw [if_pos h]
  · intro h
    unfold Level.remaining
    rw [if_neg (by omega)]

/-- Claim C10, witness: a level with 1 run and capacity 3 reports 2 free
slots; a level with 2 runs and capacity 1 makes remaining() fail. -/
theorem c10_witness :
    c10a.runs.length ≤ c10a.max_runs ∧ c10a.remaining = some 2 ∧
    c10b.max_runs < c10b.runs.length ∧ c10b.remaining = none :=
  ⟨by decide, (c10_remaining_is_checked_subtraction c10a).1 (by decide), by decide,
    (c10_remaining_is_checked_subtraction c10b).2 (by decide)⟩

/-- Claim C6: del(key) is exactly put of the tombstone entry for that key —
whenever del returns a state, put of the tombstone entry returns that very
state together with put's `true` result — and after del a subsequent get of
the key returns not-found: the tombstone now sits in the buffer and shadows
any older value of the key still physically present in a deeper run. -/
theorem c6_del_is_tombstone_put_and_shadows (t : LSMTree) (k : Key) (t1 : LSMTree)
    (h : t.del k = some t1) :
    t.put ⟨k, TOMBSTONE⟩ = some (t1, true) ∧ t1.get k = some none := by
  unfold LSMTree.del at h
  cases hp : t.put ⟨k, TOMBSTONE⟩ with
  | none => rw [hp] at h; simp at h
  | some p =>
      obtain ⟨tp, bp⟩ := p
      rw [hp] at h
      simp at h
      obtain ⟨hb, hg⟩ := put_some t k TOMBSTONE tp bp hp
      subst hb
      subst h
      refine ⟨rfl, ?_⟩
      unfold LSMTree.get
      rw [hg]
      simp

/-- Claim C6, witness: deleting key `[1]` on `c6w` — whose level 0 run still
physically maps `[1]` to the old value `[9]`, last conjunct — is the
tombstone put, and get afterwards returns not-found. -/
theorem c6_witness :
    c6w.del [1] = some c6wAfter ∧
    (c6w.put ⟨[1], TOMBSTONE⟩ = some (c6wAfter, true) ∧ c6wAfter.get [1] = some none) ∧
    Run.get ⟨10, 8, [⟨[1], [9]⟩]⟩ [1] = some [9] :=
  ⟨by decide, c6_del_is_tombstone_put_and_shadows c6w [1] c6wAfter (by decide), by decide⟩

/-- Claim C7: when merge_down compacts a full level `current` (not the last
level) into `current + 1` whose target has room, an entry of the merged
output whose value is the tombstone sentinel is written to the new run — the
run pushed at the front of the target level — if and only if the target
level `current + 1` is not the last level; merging into the last level omits
it. -/
theorem c7_tombstones_dropped_only_at_last_level
    (t : LSMTree) (current : Nat) (lcur lnext : Level) (rn : Nat) (e : EntryT)
    (h1 : t.levels[current]? = some lcur) (h2 : lcur.remaining = some 0)
    (h3 : current + 1 < t.levels.length)
    (h4 : t.levels[current + 1]? = some lnext)
    (h5 : lnext.remaining = some rn) (h6 : 0 < rn)
    (h7 : e ∈ mergeSources (lcur.runs.map Run.map_read_default))
    (h8 : e.value = TOMBSTONE) :
    t.merge_down current =
      some { t with levels := mergedLevels t lcur lnext current (current + 1) } ∧
    (mergedLevels t lcur lnext current (current + 1))[current + 1]? =
      some { lnext with runs := drainRun t lcur lnext (current + 1) :: lnext.runs } ∧
    (e ∈ (drainRun t lcur lnext (current + 1)).entries ↔
      ¬ current + 1 = t.levels.length - 1) := by
  refine ⟨?_, ?_, ?_⟩
  · rw [mergeDown_eval t current lcur lnext rn h1 h2 h3 h4 h5 h6]
    exact mergeBody_eval t current (current + 1) lcur lnext h1 h4
  · unfold mergedLevels
    rw [List.getElem?_set_ne (by omega), List.getElem?_set_self h3]
  · unfold drainRun
    rw [foldl_put_entries
      (fun e => !(decide (current + 1 = t.levels.length - 1) &&
        decide (e.value = TOMBSTONE)))]
    rw [show (Run.new lnext.max_run_size t.bf_bits_per_entry).entries = [] from rfl]
    rw [List.nil_append, List.mem_filter]
    constructor
    · rintro ⟨hm, hc⟩ hlast
      simp [hlast, h8] at hc
    · intro hne
      refine ⟨h7, ?_⟩
      simp [hne]

/-- Claim C7, witness: in the three-level tree `c7w`, compacting the full
level 0 (whose run holds a tombstone for key `[1]`) into the non-last
level 1 keeps the tombstone entry in the new run. -/
theorem c7_witness :
    (⟨[1], TOMBSTONE⟩ : EntryT) ∈ mergeSources (c7lcur.runs.map Run.map_read_default) ∧
    (c7w.merge_down 0 =
        some { c7w with levels := mergedLevels c7w c7lcur c7lnext 0 (0 + 1) } ∧
      (mergedLevels c7w c7lcur c7lnext 0 (0 + 1))[0 + 1]? =
        some { c7lnext with runs := drainRun c7w c7lcur c7lnext (0 + 1) :: c7lnext.runs } ∧
      ((⟨[1], TOMBSTONE⟩ : EntryT) ∈ (drainRun c7w c7lcur c7lnext (0 + 1)).entries ↔
        ¬ 0 + 1 = c7w.levels.length - 1)) :=
  ⟨by decide,
    c7_tombstones_dropped_only_at_last_level c7w 0 c7lcur c7lnext 2 ⟨[1], TOMBSTONE⟩
      (by decide) (by decide) (by decide) (by decide) (by decide) (by decide) (by decide)
      (by decide)⟩

/-- Claim C8, counterexample: it is not true that every key present in
several source runs gets exactly one entry in the output run.  In `c8x`,
level 0 is full and both of its runs contain key `[1]`, the most recent
copy being a tombstone; compacting into level 1 — the last level, which has
room — yields a new front run containing no entry at all for key `[1]`
(the tombstone is dropped at depth), so the output run holds zero entries
for that key, not one. -/
theorem c8_counterexample_tombstone_dropped_at_depth :
    (c8x.levels.map fun l => (l.runs.map Run.entries, l.max_runs)) =
      [([[⟨[1], TOMBSTONE⟩], [⟨[1], [5]⟩]], 2), ([], 2)] ∧
    (c8x.merge_down 0).map (fun t => t.levels.map fun l => l.runs.map Run.entries) =
      some [[], [[]]] := by
  exact ⟨by decide, by decide⟩

/-- Claim C8 as amended: when merge_down compacts a full non-last level
whose target has room, it feeds the source runs front-to-back (most recent
first) into the merge, so that for a key whose most-recent value among the
source runs is `v`, the output run carries exactly one entry for that key
with value `v` — unless the target is the last level and `v` is the
tombstone, in which case the entry is omitted (claim C7); afterwards the
source level is cleared and exactly one new run sits at the front of the
target level. -/
theorem c8_merge_newest_wins_and_restructures
    (t : LSMTree) (current : Nat) (lcur lnext : Level) (rn : Nat) (k : Key) (v : ValueT)
    (h1 : t.levels[current]? = some lcur) (h2 : lcur.remaining = some 0)
    (h3 : current + 1 < t.levels.length)
    (h4 : t.levels[current + 1]? = some lnext)
    (h5 : lnext.remaining = some rn) (h6 : 0 < rn)
    (h7 : firstValue (lcur.runs.map Run.map_read_default).flatten k = some v)
    (h8 : ¬ (current + 1 = t.levels.length - 1 ∧ v = TOMBSTONE)) :
    t.merge_down current =
      some { t with levels := mergedLevels t lcur lnext current (current + 1) } ∧
    (mergedLevels t lcur lnext current (current + 1))[current]? =
      some { lcur with runs := [] } ∧
    (mergedLevels t lcur lnext current (current + 1))[current + 1]? =
      some { lnext with runs := drainRun t lcur lnext (current + 1) :: lnext.runs } ∧
    ((drainRun t lcur lnext (current + 1)).entries.filter
        (fun e => decide (e.key = k))).map (fun e => e.value) = [v] := by
  obtain ⟨e0, hfind, hval⟩ : ∃ e0,
      (lcur.runs.map Run.map_read_default).flatten.find?
        (fun e => decide (e.key = k)) = some e0 ∧ e0.value = v := by
    unfold firstValue at h7
    cases hf : (lcur.runs.map Run.map_read_default).flatten.find?
        (fun e => decide (e.key = k)) with
    | none => rw [hf] at h7; simp at h7
    | some a =>
        rw [hf] at h7
        simp at h7
        exact ⟨a, rfl, h7⟩
  refine ⟨?_, ?_, ?_, ?_⟩
  · rw [mergeDown_eval t current lcur lnext rn h1 h2 h3 h4 h5 h6]
    exact mergeBody_eval t current (current + 1) lcur lnext h1 h4
  · unfold mergedLevels
    rw [List.getElem?_set_self (by rw [List.length_set]; omega)]
  · unfold mergedLevels
    rw [List.getElem?_set_ne (by omega), List.getElem?_set_self h3]
  · unfold drainRun
    rw [foldl_put_entries
      (fun e => !(decide (current + 1 = t.levels.length - 1) &&
        decide (e.value = TOMBSTONE)))]
    rw [show (Run.new lnext.max_run_size t.bf_bits_per_entry).entries = [] from rfl]
    rw [List.nil_append]
    have hone : (mergeSources (lcur.runs.map Run.map_read_default)).filter
        (fun e => decide (e.key = k)) = [e0] :=
      mergeSources_filter_key _ k e0 hfind
    have hc : (!(decide (current + 1 = t.levels.length - 1) &&
        decide (e0.value = TOMBSTONE))) = true := by
      by_cases hl : current + 1 = t.levels.length - 1
      · have hv : ¬ e0.value = TOMBSTONE := by
          rw [hval]
          exact fun hv => h8 ⟨hl, hv⟩
        simp [hl, hv]
      · simp [hl]
    rw [List.filter_filter]
    rw [List.filter_congr (fun a _ => Bool.and_comm (decide (a.key = k)) _)]
    rw [← List.filter_filter, hone]
    rw [List.filter_cons, if_pos hc]
    simp [hval]

/-- Claim C8, witness: in `c8w` both runs of the full level 0 contain key
`[1]`, the more recent run mapping it to `[7]`; compacting into level 1
clears level 0, pushes one new run at the front of level 1, and that run
carries exactly one entry for key `[1]`, with the most recent value `[7]`. -/
theorem c8_witness :
    firstValue (c8lcur.runs.map Run.map_read_default).flatten [1] = some [7] ∧
    (c8w.merge_down 0 =
        some { c8w with levels := mergedLevels c8w c8lcur c8lnext 0 (0 + 1) } ∧
      (mergedLevels c8w c8lcur c8lnext 0 (0 + 1))[0]? = some { c8lcur with runs := [] } ∧
      (mergedLevels c8w c8lcur c8lnext 0 (0 + 1))[0 + 1]? =
        some { c8lnext with runs := drainRun c8w c8lcur c8lnext (0 + 1) :: c8lnext.runs } ∧
      ((drainRun c8w c8lcur c8lnext (0 + 1)).entries.filter
          (fun e => decide (e.key = [1]))).map (fun e => e.value) = [[7]]) :=
  ⟨by decide,
    c8_merge_newest_wins_and_restructures c8w 0 c8lcur c8lnext 2 [1] [7]
      (by decide) (by decide) (by decide) (by decide) (by decide) (by decide) (by decide)
      (by decide)⟩

end LSMKV
